import Mathlib

/-!
Verification of the spreadsheet evaluator (src/SpreadsheetEvaluator.py)
against its natural-language specification.

The program is shallowly embedded: strings are lists of characters
(`Str`), Python dictionaries are association lists with first-match
lookup, the value domain of the evaluator is `PyVal`, and every raised
exception is a constructor of `Err` carrying exactly the data that the
source interpolates into the exception message (`errMessage` renders
the message text).  Character classification (`Char.isUpper`,
`Char.isDigit`, `Char.isWhitespace`) models the ASCII fragment of the
corresponding Python predicates; every input appearing in the claims is
ASCII.  Numeric values are modelled as rationals; every literal and
arithmetic result appearing in the claims is exactly representable in
double precision, so no IEEE rounding is observable in them.

A deliberate point of faithfulness: lines 139-140 of the source read
`a = queue.popleft,` and `b = queue.popleft`, which bind `a` to the
one-element tuple holding the bound method `queue.popleft` and `b` to
that bound method itself -- neither call pops the deque.  The embedding
represents those two objects as `PyVal.popleftTuple` and
`PyVal.popleftMethod` and gives Python's arithmetic on them faithfully
(every binary operation on them raises `TypeError`, and `b == 0` is
`False`).
-/

set_option maxRecDepth 8000

deriving instance DecidableEq for Except

namespace SpreadsheetEval

/-- Strings of the embedded program: lists of characters. -/
abbrev Str := List Char

/-- First-match lookup in an association list (Python `d[k]` / `k in d`). -/
def lookupA {α : Type} : List (Str × α) → Str → Option α
  | [], _ => none
  | (k, v) :: rest, key => if k = key then some v else lookupA rest key

/-- Decimal value of a digit string (Python `int` on an ASCII digit string). -/
def digitsToNat (s : Str) : Nat :=
  s.foldl (fun acc c => acc * 10 + (c.toNat - 48)) 0

/-- Decimal rendering of a natural number (Python `str` on a non-negative int). -/
def natToChars (n : Nat) : Str := Nat.toDigits 10 n

/-- Python values that occur in the evaluator. `pstr []` is the empty-value
marker a blank cell holds.  `popleftTuple` is the tuple `(queue.popleft,)`
built by line 139 of the source and `popleftMethod` the bound method
`queue.popleft` bound by line 140 (neither line calls the method). -/
inductive PyVal : Type where
  | num (q : ℚ)
  | pstr (s : Str)
  | popleftTuple
  | popleftMethod
deriving DecidableEq

/-- The exceptions the program can raise, carrying the data interpolated
into each exception message.  `typeError` is the `TypeError` Python raises
when `calculate` applies an arithmetic operator to the tuple and bound
method produced by the slip on lines 139-140.  `outOfFuel` is an artifact
of the embedding's explicit recursion bound and corresponds to Python's
`RecursionError`; every theorem below supplies enough fuel for it never
to surface.  `keyError` models `self.valMap[cell]` failing in
`writeOutput`. -/
inductive Err : Type where
  | tooManyCells (limit : Nat)
  | circularReference (cell : Str)
  | tooManyTokens (cell : Str) (limit : Nat)
  | insufficientOperands (op : Str) (cell : Str)
  | typeError
  | divisionByZero
  | invalidNumber (op : Str) (cell : Str)
  | invalidToken (op : Str) (cell : Str)
  | invalidExpression (cell : Str)
  | unboundLocal
  | keyError (cell : Str)
  | outOfFuel
deriving DecidableEq

/-- The message text of each exception, following the source's f-strings
character for character (for `typeError` Python's own wording varies with
the operator; no claim depends on it). -/
def errMessage : Err → Str
  | .tooManyCells limit =>
      "Input file contains more than maximum number of allowed cells (".data
        ++ natToChars limit ++ ")".data
  | .circularReference cell => "Circular reference at ".data ++ cell
  | .tooManyTokens cell limit =>
      "Expression too long in ".data ++ cell ++ " - max of ".data
        ++ natToChars limit ++ " tokens in a cell".data
  | .insufficientOperands op cell =>
      "Need at least 1 operand for ".data ++ op ++ " in ".data ++ cell
  | .typeError => "unsupported operand type(s)".data
  | .divisionByZero => "Division by zero".data
  | .invalidNumber op cell =>
      "Error evaluating number ".data ++ op ++ " in ".data ++ cell
  | .invalidToken op cell =>
      "Invalid token \x27".data ++ op ++ "\x27 in ".data ++ cell
  | .invalidExpression cell => "Invalid expression in ".data ++ cell
  | .unboundLocal => "local variable \x27res\x27 referenced before assignment".data
  | .keyError cell => cell
  | .outOfFuel => "maximum recursion depth exceeded".data

/-- `self.maxTokensPerCell` (source line 18). -/
def maxTokensPerCell : Nat := 100

/-- `self.maxCells` (source line 21). -/
def maxCells : Nat := 500000

/-- The loop of `indexToColForm`, with an explicit bound on the number of
iterations (the index shrinks strictly each time, so `index + 1`
iterations always suffice and the `0` case is unreachable). -/
def indexToColFormAux : Nat → Nat → Str
  | 0, _ => []
  | bound + 1, index =>
    if index < 26 then [Char.ofNat (65 + index % 26)]
    else indexToColFormAux bound (index / 26 - 1) ++ [Char.ofNat (65 + index % 26)]

/-- `indexToColForm` (source lines 72-79): bijective base-26 column label.
The source loop prepends `chr(ord('A') + index % 26)` and replaces `index`
by `index // 26 - 1` until that is negative; the recursion builds the
same string most-significant-letter first. -/
def indexToColForm (index : Nat) : Str := indexToColFormAux (index + 1) index

/-- `getCellName` (source lines 86-88): column label then 1-based row. -/
def getCellName (colIndex rowIndex : Nat) : Str :=
  indexToColForm colIndex ++ natToChars (rowIndex + 1)

/-- `isCellReference` (source lines 182-196): a maximal prefix of one or
more uppercase letters followed by a non-empty all-digit remainder whose
integer value is positive.  The source's per-character loop with `break`
is the `takeWhile`; `row and row.isdigit() and int(row) > 0` is the final
conjunction (Python returns the empty string itself, which is falsy, when
`row` is empty). -/
def isCellReference (op : Str) : Bool :=
  if op = [] then false
  else
    let colCount := (op.takeWhile fun c => c.isAlpha && c.isUpper).length
    if colCount = 0 then false
    else
      let row := op.drop colCount
      !row.isEmpty && row.all Char.isDigit && decide (0 < digitsToNat row)

/-- The regular expression `^[+-]?\d*(\.\d+)?$` of source line 146:
an optional sign, zero or more digits, and an optional fractional part of
a dot followed by one or more digits. -/
def matchesNumeral (op : Str) : Bool :=
  let afterSign : Str :=
    match op with
    | c :: rest => if c = '+' || c = '-' then rest else op
    | [] => []
  match afterSign.dropWhile Char.isDigit with
  | [] => true
  | c :: rest => c = '.' && !rest.isEmpty && rest.all Char.isDigit

/-- The unsigned part of Python `float` on the digit-and-dot body that
follows an optional sign: `none` when no digit is present (Python raises
`ValueError` there), otherwise the exact decimal value with the given
sign applied.  IEEE double rounding is not modelled; every literal in
the verified scenarios is exactly representable. -/
def pyFloatBody (sign : ℚ) (body : Str) : Option ℚ :=
  let intPart := body.takeWhile Char.isDigit
  match body.drop intPart.length with
  | [] =>
      if intPart.isEmpty then none
      else some (sign * (digitsToNat intPart : ℚ))
  | '.' :: frac =>
      if (intPart.isEmpty && frac.isEmpty) || !frac.all Char.isDigit then none
      else
        some (sign * ((digitsToNat intPart : ℚ)
          + (digitsToNat frac : ℚ) / (10 : ℚ) ^ frac.length))
  | _ => none

/-- Python `float` on the tokens the evaluator can pass it: an optional
leading sign followed by the digit-and-dot body. -/
def pyFloat (op : Str) : Option ℚ :=
  match op with
  | c :: rest =>
      if c = '-' then pyFloatBody (-1) rest
      else if c = '+' then pyFloatBody 1 rest
      else pyFloatBody 1 op
  | [] => pyFloatBody 1 []

/-- Python `b == 0` for the values of the embedding: only a numeric zero
compares equal to `0` (a bound method never does). -/
def pyEqZero : PyVal → Bool
  | .num q => q = 0
  | _ => false

/-- Python `a + b` on the embedded values: numbers add, strings
concatenate, and any operand that is the tuple or bound method from the
lines 139-140 slip raises `TypeError`. -/
def pyAdd : PyVal → PyVal → Except Err PyVal
  | .num a, .num b => .ok (.num (a + b))
  | .pstr a, .pstr b => .ok (.pstr (a ++ b))
  | _, _ => .error .typeError

/-- Python `a - b`: defined on numbers only. -/
def pySub : PyVal → PyVal → Except Err PyVal
  | .num a, .num b => .ok (.num (a - b))
  | _, _ => .error .typeError

/-- Python `a * b` for the operand shapes the program can produce:
numbers multiply; every other combination (tuple, bound method, or a
string paired with a non-int) raises `TypeError`. -/
def pyMul : PyVal → PyVal → Except Err PyVal
  | .num a, .num b => .ok (.num (a * b))
  | _, _ => .error .typeError

/-- Python `a / b`: defined on numbers only; `calculate` tests `b == 0`
before calling it, so the zero-divisor case never reaches it. -/
def pyDiv : PyVal → PyVal → Except Err PyVal
  | .num a, .num b => .ok (.num (a / b))
  | _, _ => .error .typeError

/-- `calculate` (source lines 165-176).  The `operator` always is one of
the four at the only call site; on any other operator the source would
return the unbound local `res`. -/
def calculate (a b : PyVal) (operator : Str) : Except Err PyVal :=
  if operator = ['+'] then pyAdd a b
  else if operator = ['-'] then pySub a b
  else if operator = ['*'] then pyMul a b
  else if operator = ['/'] then
    if pyEqZero b then .error .divisionByZero
    else pyDiv a b
  else .error .unboundLocal

/-- The operator test `op in {"+", "-", "*", "/"}` of source line 136. -/
def isOperator (op : Str) : Bool :=
  op = ['+'] || op = ['-'] || op = ['*'] || op = ['/']

/-- The evaluator's state: `self.exprMap` and `self.valMap`. -/
structure EvalState : Type where
  exprMap : List (Str × List Str)
  valMap : List (Str × PyVal)
deriving DecidableEq

/-- The result type of one `evaluateDFS` call: the cell's value, the
state after it, and the visiting set after it (Python mutates one shared
set; the embedding threads it). -/
abbrev DfsResult := PyVal × EvalState × List Str

/-- The token loop of `evaluateDFS` (source lines 132-152): `recur`
resolves a referenced cell (it is `evaluateDFS` at the next recursion
depth), `full` is the whole token list `ops` whose length line 133
re-checks on every iteration, and `queue` is the deque of values.  At an
operator the source binds `a` to the tuple `(queue.popleft,)` and `b` to
the bound method `queue.popleft` without calling either (lines 139-140),
so the deque is not popped and `calculate` receives those two objects. -/
def runOps (recur : EvalState → Str → List Str → Except Err DfsResult)
    (full : List Str) (cell : Str) :
    List Str → List PyVal → EvalState → List Str →
      Except Err (List PyVal × EvalState × List Str)
  | [], queue, st, visiting => .ok (queue, st, visiting)
  | op :: rest, queue, st, visiting =>
    if full.length > maxTokensPerCell then
      .error (.tooManyTokens cell maxTokensPerCell)
    else if isOperator op then
      if queue.length < 2 then .error (.insufficientOperands op cell)
      else
        match calculate PyVal.popleftTuple PyVal.popleftMethod op with
        | .error e => .error e
        | .ok res => runOps recur full cell rest (queue ++ [res]) st visiting
    else if isCellReference op then
      match recur st op visiting with
      | .error e => .error e
      | .ok (val, st', visiting') =>
          runOps recur full cell rest (queue ++ [val]) st' visiting'
    else if matchesNumeral op then
      match pyFloat op with
      | some q => runOps recur full cell rest (queue ++ [PyVal.num q]) st visiting
      | none => .error (.invalidNumber op cell)
    else .error (.invalidToken op cell)

/-- `evaluateDFS` (source lines 116-160).  `fuel` bounds the recursion
depth, one unit per nested resolution (CPython imposes such a bound too,
its recursion limit); every caller below supplies enough for the bound
never to bite. -/
def evaluateDFS : Nat → EvalState → Str → List Str → Except Err DfsResult
  | 0, _, _, _ => .error .outOfFuel
  | fuel + 1, st, cell, visiting =>
    match lookupA st.valMap cell with
    | some v => .ok (v, st, visiting)
    | none =>
      if visiting.contains cell then .error (.circularReference cell)
      else
        match lookupA st.exprMap cell with
        | none => .ok (.pstr [], st, visiting)
        | some ops =>
          match runOps (fun st' c vis => evaluateDFS fuel st' c vis)
              ops cell ops [] st (cell :: visiting) with
          | .error e => .error e
          | .ok (queue, st', visiting') =>
            match queue with
            | [res] =>
                .ok (res, { st' with valMap := (cell, res) :: st'.valMap },
                  visiting'.erase cell)
            | _ => .error (.invalidExpression cell)

/-- Python `str.strip`: whitespace removed from both ends. -/
def pstrip (s : Str) : Str :=
  ((s.dropWhile Char.isWhitespace).reverse.dropWhile Char.isWhitespace).reverse

/-- Python `str.split(sep)` for a one-character separator: keeps empty
pieces, and the empty string splits to one empty piece. -/
def splitChar (sep : Char) : Str → List Str
  | [] => [[]]
  | c :: rest =>
    match splitChar sep rest with
    | [] => if c = sep then [[], []] else [[c]]
    | h :: t => if c = sep then [] :: h :: t else (c :: h) :: t

/-- The loop of `splitWs`, carrying the reversed word read so far. -/
def splitWsAux : Str → Str → List Str
  | [], acc => if acc = [] then [] else [acc.reverse]
  | c :: rest, acc =>
    if c.isWhitespace then
      if acc = [] then splitWsAux rest []
      else acc.reverse :: splitWsAux rest []
    else splitWsAux rest (c :: acc)

/-- Python `str.split()` with no argument: split on whitespace runs,
dropping empty pieces. -/
def splitWs (s : Str) : List Str := splitWsAux s []

/-- One row of `parseInput`'s inner loop (source lines 55-64): cell names
for the row, the expression-map entries of its non-empty cells and the
value-map entries (the empty marker) of its empty cells. -/
def parseCells (rowIndex : Nat) :
    Nat → List Str → List Str × List (Str × List Str) × List (Str × PyVal)
  | _, [] => ([], [], [])
  | colIndex, cellText :: rest =>
    let cell := getCellName colIndex rowIndex
    let expression := pstrip cellText
    let (rowCells, es, vs) := parseCells rowIndex (colIndex + 1) rest
    if expression = [] then (cell :: rowCells, es, (cell, PyVal.pstr []) :: vs)
    else (cell :: rowCells, (cell, splitWs expression) :: es, vs)

/-- `parseInput` (source lines 43-66) over the input's lines: the grid of
cell names, the expression map and the value map, or `TooManyCells` when
the running cell count passes `maxCells`. -/
def parseRows : Nat → Nat → List Str →
    Except Err (List (List Str) × List (Str × List Str) × List (Str × PyVal))
  | _, _, [] => .ok ([], [], [])
  | rowIndex, cellCount, line :: rest =>
    let cells := splitChar ',' (pstrip line)
    if cellCount + cells.length > maxCells then .error (.tooManyCells maxCells)
    else
      let (rowCells, es, vs) := parseCells rowIndex 0 cells
      match parseRows (rowIndex + 1) (cellCount + cells.length) rest with
      | .error e => .error e
      | .ok (grid, es', vs') => .ok (rowCells :: grid, es ++ es', vs ++ vs')

/-- `evaluate`'s inner loop over one grid row (source lines 98-101):
each cell present in the expression map is resolved with a fresh empty
visiting set, threading the value map. -/
def evalRow (fuel : Nat) : List Str → EvalState → Except Err EvalState
  | [], st => .ok st
  | cell :: rest, st =>
    if (lookupA st.exprMap cell).isSome then
      match evaluateDFS fuel st cell [] with
      | .error e => .error e
      | .ok (_, st', _) => evalRow fuel rest st'
    else evalRow fuel rest st

/-- `evaluate` (source lines 97-101): row-major traversal of the grid. -/
def evaluate (fuel : Nat) : List (List Str) → EvalState → Except Err EvalState
  | [], st => .ok st
  | row :: rows, st =>
    match evalRow fuel row st with
    | .error e => .error e
    | .ok st' => evaluate fuel rows st'

/-- The fractional digits of `n/d` by long division, `fuel` bounding the
length; every value serialized in the verified scenarios has a short
exact decimal expansion. -/
def fracDigits : Nat → Nat → Nat → Str
  | 0, _, _ => []
  | fuel + 1, r, d =>
    if r = 0 then []
    else Char.ofNat (48 + r * 10 / d) :: fracDigits fuel (r * 10 % d) d

/-- Python `str` on a float, for the exactly-representable decimals the
scenarios produce: sign, integer part, a dot, and at least one
fractional digit (so `5.0`, `0.878`, `-5.0`). -/
def pyFloatRepr (q : ℚ) : Str :=
  let sign : Str := if q < 0 then ['-'] else []
  let n := q.num.natAbs
  let d := q.den
  let r := n % d
  sign ++ natToChars (n / d) ++ '.' :: (if r = 0 then ['0'] else fracDigits 17 r d)

/-- Python `str(self.valMap[cell])`: the empty marker prints as the empty
string, numbers in their float form.  The tuple and bound method of the
lines 139-140 slip never reach the value map (every operator evaluation
raises before producing a value), so their renderings are immaterial. -/
def pyStrOfVal : PyVal → Str
  | .pstr s => s
  | .num q => pyFloatRepr q
  | .popleftTuple => "popleft-tuple".data
  | .popleftMethod => "popleft-method".data

/-- One output row of `writeOutput` (source lines 201-207): each cell's
value rendered and rejoined with commas; a cell missing from the value
map would raise `KeyError`. -/
def writeRow (valMap : List (Str × PyVal)) : List Str → Except Err (List Str)
  | [] => .ok []
  | cell :: rest =>
    match lookupA valMap cell with
    | none => .error (.keyError cell)
    | some v =>
      match writeRow valMap rest with
      | .error e => .error e
      | .ok cs => .ok (pyStrOfVal v :: cs)

/-- `writeOutput` as the list of output lines (the file is these lines
each followed by a newline). -/
def writeOutput (valMap : List (Str × PyVal)) :
    List (List Str) → Except Err (List Str)
  | [] => .ok []
  | row :: rows =>
    match writeRow valMap row with
    | .error e => .error e
    | .ok cells =>
      match writeOutput valMap rows with
      | .error e => .error e
      | .ok lines => .ok (List.intercalate [','] cells :: lines)

/-- A whole run of the program on the input text (parse, evaluate, write),
as `main` chains them (source lines 218-226): the output lines, or the
first exception raised.  The recursion bound covers the deepest possible
reference chain, one frame per expression-map entry, with room to spare. -/
def fullRun (input : Str) : Except Err (List Str) :=
  match parseRows 0 0 (splitChar '\n' input) with
  | .error e => .error e
  | .ok (grid, es, vs) =>
    match evaluate (es.length + 2) grid ⟨es, vs⟩ with
    | .error e => .error e
    | .ok st => writeOutput st.valMap grid

/-- The head of a pending reference chain, or the chain's target when
nothing is pending. -/
def chainHead : List Str → Str → Str
  | [], target => target
  | d :: _, _ => d

/-- A pure single-reference chain closing on `target`: every listed cell
is uncached, its expression is exactly one token naming the next listed
cell (the `target` after the last one), and that token passes
`isCellReference`. -/
def isRefChain (st : EvalState) : List Str → Str → Prop
  | [], _ => True
  | d :: rest, target =>
    lookupA st.valMap d = none ∧
    lookupA st.exprMap d = some [chainHead rest target] ∧
    isCellReference (chainHead rest target) = true ∧
    isRefChain st rest target

/-- The literal-number grammar exactly as the specification's claim words
it: an optional leading sign, one or more digits, then an optional dot
followed by digits.  (The source's regex `^[+-]?\d*(\.\d+)?$` differs: it
lets the integer digits be absent, accepting tokens such as `.5`.) -/
def claimNumeralGrammar (op : Str) : Bool :=
  let body : Str :=
    match op with
    | c :: rest => if c = '+' || c = '-' then rest else op
    | [] => []
  let intPart := body.takeWhile Char.isDigit
  !intPart.isEmpty &&
    match body.drop intPart.length with
    | [] => true
    | c :: rest => c = '.' && !rest.isEmpty && rest.all Char.isDigit

/-- The bijective base-26 value of a letter string (`A` = 1, `Z` = 26,
`AA` = 27): the proof-side inverse showing `indexToColForm` injective. -/
def letterVal (s : Str) : Nat :=
  s.foldl (fun a c => a * 26 + (c.toNat - 64)) 0

/-! ## Theorems -/

/-- C1: the specification's basic-arithmetic scenario
`"2 3 +,6 2 /\n8 8 *" → "5.0,3.0\n64.0"` does not hold of the code as
written: the first operator token already raises a `TypeError`, because
lines 139-140 bind `a` to the tuple `(queue.popleft,)` and `b` to the
bound method `queue.popleft` instead of calling `popleft()`, and
`calculate` then applies `+` to those two objects.  The run aborts and
writes nothing.  (The repository's own test suite expects the
specified output, so this is a defect of the code, not of the spec.) -/
theorem c1_basic_arithmetic_scenario_fails_with_type_error :
    fullRun ("2 3 +,6 2 /\n8 8 *".data) = .error .typeError := by decide

/-- C2: the claim's concrete consequence — a cell containing exactly
`3 2 -` evaluates to `1.0` — fails on the code as written: the `-`
token raises a `TypeError` (lines 139-140 never call `popleft`), so the
run aborts instead of producing `1.0`.  Were the two calls repaired,
`deque.popleft` would moreover take the two LEAST-recently-pushed
values, agreeing with the claimed `firstPushed OP secondPushed` result
only when the stack holds exactly two values, as it does here. -/
theorem c2_subtraction_cell_fails_with_type_error :
    fullRun ("3 2 -".data) = .error .typeError := by decide

/-- C4: the scenario `"1 0 /"` does not raise `DivisionByZero`: because
`b` is the bound method `queue.popleft` (line 140, never called), the
guard `b == 0` is false and `a / b` raises a `TypeError` first.  The
second conjunct records that even the intended message
(`"Division by zero"`, line 174) names no cell, contrary to the claim's
"names the cell in which the division occurred". -/
theorem c4_division_by_zero_scenario_fails_with_type_error :
    fullRun ("1 0 /".data) = .error .typeError ∧
      errMessage Err.divisionByZero = "Division by zero".data := by
  exact ⟨by decide, by decide⟩

/-- C6: a cell with no Expression Map entry resolves to the empty-value
marker, leaving the state (in particular the Value Map) and the visiting
set untouched; and the scenario `",\nA1"` succeeds with output lines
`","` and `""` — referencing an empty cell yields empty, not an error. -/
theorem c6_blank_cells_resolve_to_empty_marker :
    (∀ (fuel : Nat) (st : EvalState) (cell : Str) (vis : List Str),
        lookupA st.valMap cell = none → vis.contains cell = false →
        lookupA st.exprMap cell = none →
        evaluateDFS (fuel + 1) st cell vis = .ok (.pstr [], st, vis)) ∧
      fullRun (",\nA1".data) = .ok [[','], []] := by
  refine ⟨fun fuel st cell vis h1 h2 h3 => ?_, by decide⟩
  have h2' : cell ∉ vis := by simpa using h2
  simp [evaluateDFS, h1, h2', h3]

/-- C7: a cell whose token sequence exceeds the 100-token limit fails
with `TooManyTokens` naming the cell and the limit, whatever the tokens
are, whatever the rest of the state is, and with no token interpreted
(the error is decided by the length alone; the guard of line 133 fires
on the first iteration, before any token can act).  Concretely, the
single-cell input of 500 `1` tokens fails with the message
`Expression too long in A1 - max of 100 tokens in a cell`. -/
theorem c7_too_many_tokens_rejected_before_interpretation :
    (∀ (fuel : Nat) (st : EvalState) (cell : Str) (vis : List Str)
        (ops : List Str),
        lookupA st.valMap cell = none → vis.contains cell = false →
        lookupA st.exprMap cell = some ops →
        maxTokensPerCell < ops.length →
        evaluateDFS (fuel + 1) st cell vis =
          .error (.tooManyTokens cell maxTokensPerCell)) ∧
      fullRun (List.intercalate [' '] (List.replicate 500 ['1'])) =
          .error (.tooManyTokens ['A', '1'] 100) ∧
      errMessage (.tooManyTokens ['A', '1'] 100) =
        "Expression too long in A1 - max of 100 tokens in a cell".data := by
  refine ⟨fun fuel st cell vis ops h1 h2 h3 hlen => ?_, by decide, by decide⟩
  have h2' : cell ∉ vis := by simpa using h2
  cases ops with
  | nil => simp [maxTokensPerCell] at hlen
  | cons op rest =>
    have hlen' : maxTokensPerCell < rest.length + 1 := by simpa using hlen
    simp [evaluateDFS, h1, h2', h3, runOps, hlen']

/-- `Char.ofNat` is faithful on the uppercase-letter range the column
generator uses. -/
theorem toNat_ofNat_letter : ∀ k < 26, (Char.ofNat (65 + k)).toNat = 65 + k := by
  decide

theorem letterVal_append_singleton (l : Str) (c : Char) :
    letterVal (l ++ [c]) = letterVal l * 26 + (c.toNat - 64) := by
  simp [letterVal, List.foldl_append]

/-- The base-26 value of the label the generator produces is `index + 1`,
for any sufficient iteration bound. -/
theorem letterVal_indexToColFormAux :
    ∀ bound index : Nat, index < bound →
      letterVal (indexToColFormAux bound index) = index + 1 := by
  intro bound
  induction bound with
  | zero => intro index h; omega
  | succ b ih =>
    intro index h
    have hmod : index % 26 < 26 := Nat.mod_lt _ (by omega)
    have hchar := toNat_ofNat_letter (index % 26) hmod
    by_cases h26 : index < 26
    · have hm : index % 26 = index := Nat.mod_eq_of_lt h26
      simp only [indexToColFormAux, if_pos h26, letterVal, List.foldl_cons,
        List.foldl_nil, hchar]
      omega
    · have hdiv : index / 26 < index := Nat.div_lt_self (by omega) (by omega)
      have hone : 1 ≤ index / 26 := (Nat.one_le_div_iff (by omega)).mpr (by omega)
      have ihd := ih (index / 26 - 1) (by omega)
      simp only [indexToColFormAux, if_neg h26, letterVal_append_singleton,
        ihd, hchar]
      have := Nat.div_add_mod index 26
      omega

/-- C9: the column-name generator is bijective base-26 — the six pinned
values hold and the mapping is injective over all indices (shown through
its base-26 value `letterVal`, which recovers `index + 1`). -/
theorem c9_indexToColForm_bijective_base26 :
    (indexToColForm 0 = ['A'] ∧ indexToColForm 25 = ['Z'] ∧
      indexToColForm 26 = ['A', 'A'] ∧ indexToColForm 27 = ['A', 'B'] ∧
      indexToColForm 51 = ['A', 'Z'] ∧ indexToColForm 52 = ['B', 'A']) ∧
    Function.Injective indexToColForm := by
  refine ⟨by decide, fun a b h => ?_⟩
  have ha := letterVal_indexToColFormAux (a + 1) a (Nat.lt_succ_self a)
  have hb := letterVal_indexToColFormAux (b + 1) b (Nat.lt_succ_self b)
  unfold indexToColForm at h
  rw [h] at ha
  omega

/-- A token that passes `isCellReference` is not one of the four operator
tokens, so the reference branch of the token loop is the one taken. -/
theorem isOperator_eq_false_of_ref (op : Str) (h : isCellReference op = true) :
    isOperator op = false := by
  cases hop : isOperator op
  · rfl
  · exfalso
    have hcases : ((op = ['+'] ∨ op = ['-']) ∨ op = ['*']) ∨ op = ['/'] := by
      simpa [isOperator] using hop
    rcases hcases with ((rfl | rfl) | rfl) | rfl <;> exact absurd h (by decide)

/-- Descending a pure single-reference chain whose target is already on
the visiting path ends in `CircularReference` naming the target. -/
theorem chain_eval_circular :
    ∀ (pending : List Str) (st : EvalState) (vis : List Str) (target : Str)
      (fuel : Nat),
      isRefChain st pending target →
      (∀ d ∈ pending, d ∉ vis) →
      pending.Nodup →
      target ∈ vis →
      lookupA st.valMap target = none →
      pending.length + 1 ≤ fuel →
      evaluateDFS fuel st (chainHead pending target) vis =
        .error (.circularReference target) := by
  intro pending
  induction pending with
  | nil =>
    intro st vis target fuel _ _ _ htv hv hfuel
    obtain ⟨f, rfl⟩ : ∃ f, fuel = f + 1 := ⟨fuel - 1, by omega⟩
    simp [chainHead, evaluateDFS, hv, htv]
  | cons d rest ih =>
    intro st vis target fuel hchain hnotvis hnodup htv hv hfuel
    obtain ⟨hd1, hd2, hd3, hd4⟩ := hchain
    obtain ⟨f, rfl⟩ : ∃ f, fuel = f + 1 := ⟨fuel - 1, by omega⟩
    have hdnv : d ∉ vis := hnotvis d (by simp)
    have hop : isOperator (chainHead rest target) = false :=
      isOperator_eq_false_of_ref _ hd3
    have hdrest : d ∉ rest := (List.nodup_cons.mp hnodup).1
    have hrec := ih st (d :: vis) target f hd4
      (fun e he => by
        simp only [List.mem_cons, not_or]
        exact ⟨fun hed => hdrest (hed ▸ he), hnotvis e (by simp [he])⟩)
      (List.nodup_cons.mp hnodup).2
      (by simp [htv]) hv
      (by simp only [List.length_cons] at hfuel ⊢; omega)
    have hhead : chainHead (d :: rest) target = d := rfl
    rw [hhead]
    simp [evaluateDFS, hd1, hdnv, hd2, runOps, maxTokensPerCell,
      hop, hd3, hrec]

/-- C3 (counterexample): a grid whose reference graph contains the cycle
A1 → A2 → A1 but whose cell A1 also holds the malformed token `x` fails
with `InvalidToken`, not with a `CircularReference`, because the bad
token is interpreted before the cycle is re-entered.  So the claim's
universal statement over every cyclic reference graph is false as
stated. -/
theorem c3_cycle_with_invalid_token_counterexample :
    fullRun ("x A2\nA1".data) = .error (.invalidToken ['x'] ['A', '1']) ∧
      Err.invalidToken ['x'] ['A', '1'] ≠ Err.circularReference ['A', '1'] ∧
      Err.invalidToken ['x'] ['A', '1'] ≠ Err.circularReference ['A', '2'] := by
  exact ⟨by decide, by decide, by decide⟩

/-- C3 (amended): on the scenario input `"A2\nA1"` the run fails with
`CircularReference` whose message is exactly `Circular reference at A1`,
naming the first re-entered cell; and in general, for every pure
single-reference cycle (each cell's expression one reference token to
the next, the last back to the first, any length ≥ 1 including
self-reference), resolving the first cell fails with
`CircularReference` naming that cell — it is the one first re-entered
on the resolution path. -/
theorem c3_reference_cycles_raise_circular_reference :
    (fullRun ("A2\nA1".data) = .error (.circularReference ['A', '1']) ∧
      errMessage (.circularReference ['A', '1']) =
        "Circular reference at A1".data) ∧
    (∀ (st : EvalState) (c : Str) (rest : List Str) (fuel : Nat),
      isRefChain st (c :: rest) c → (c :: rest).Nodup →
      rest.length + 2 ≤ fuel →
      evaluateDFS fuel st c [] = .error (.circularReference c)) := by
  refine ⟨⟨by decide, by decide⟩, fun st c rest fuel hchain hnodup hfuel => ?_⟩
  obtain ⟨hd1, hd2, hd3, hd4⟩ := hchain
  obtain ⟨f, rfl⟩ : ∃ f, fuel = f + 1 := ⟨fuel - 1, by omega⟩
  have hop : isOperator (chainHead rest c) = false :=
    isOperator_eq_false_of_ref _ hd3
  have hcrest : c ∉ rest := (List.nodup_cons.mp hnodup).1
  have hrec := chain_eval_circular rest st [c] c f hd4
    (fun e he => by
      simp only [List.mem_singleton]
      exact fun hec => hcrest (hec ▸ he))
    (List.nodup_cons.mp hnodup).2
    (by simp) hd1
    (by omega)
  simp [evaluateDFS, hd1, hd2, runOps, maxTokensPerCell, hop, hd3, hrec]

/-- The token loop never deletes a Value Map entry: whatever resolver
`recur` it is given, as long as that resolver preserves entries, a
successful pass over the tokens preserves them too. -/
theorem runOps_preserves_valMap
    (recur : EvalState → Str → List Str → Except Err DfsResult)
    (hrecur : ∀ (st : EvalState) (c : Str) (vis : List Str) (out : DfsResult),
      recur st c vis = .ok out →
      ∀ (x : Str) (w : PyVal), lookupA st.valMap x = some w →
        lookupA out.2.1.valMap x = some w) :
    ∀ (rem full : List Str) (cell : Str) (queue : List PyVal)
      (st : EvalState) (vis : List Str)
      (out : List PyVal × EvalState × List Str),
      runOps recur full cell rem queue st vis = .ok out →
      ∀ (x : Str) (w : PyVal), lookupA st.valMap x = some w →
        lookupA out.2.1.valMap x = some w := by
  intro rem
  induction rem with
  | nil =>
    intro full cell queue st vis out h x w hx
    simp only [runOps] at h
    cases h
    exact hx
  | cons op rest ih =>
    intro full cell queue st vis out h x w hx
    simp only [runOps] at h
    split at h
    · cases h
    · split at h
      · split at h
        · cases h
        · split at h
          · cases h
          · exact ih full cell _ st vis out h x w hx
      · split at h
        · split at h
          · cases h
          · rename_i v1 st1 vis1 hrec
            exact ih full cell _ st1 vis1 out h x w
              (hrecur st op vis (v1, st1, vis1) hrec x w hx)
        · split at h
          · split at h
            · exact ih full cell _ st vis out h x w hx
            · cases h
          · cases h

/-- `evaluateDFS` never deletes or changes a Value Map entry: a
successful resolution only ever ADDS entries (the memo write of line
158 concerns a cell that had none). -/
theorem evaluateDFS_preserves_valMap :
    ∀ (fuel : Nat) (st : EvalState) (cell : Str) (vis : List Str)
      (out : DfsResult),
      evaluateDFS fuel st cell vis = .ok out →
      ∀ (x : Str) (w : PyVal), lookupA st.valMap x = some w →
        lookupA out.2.1.valMap x = some w := by
  intro fuel
  induction fuel with
  | zero => intro st cell vis out h; cases h
  | succ f ih =>
    intro st cell vis out h x w hx
    simp only [evaluateDFS] at h
    split at h
    · rename_i v hv
      cases h
      exact hx
    · rename_i hv
      split at h
      · cases h
      · split at h
        · cases h
          exact hx
        · rename_i ops hops
          rcases hrun : runOps (fun st' c vis' => evaluateDFS f st' c vis')
              ops cell ops [] st (cell :: vis) with e | ⟨queue1, st1, vis1⟩
          · rw [hrun] at h
            simp at h
          · rw [hrun] at h
            have hst1 := runOps_preserves_valMap
              (fun st' c vis' => evaluateDFS f st' c vis')
              (fun st' c vis' out' h' => ih st' c vis' out' h')
              ops ops cell [] st (cell :: vis) (queue1, st1, vis1) hrun x w hx
            rcases queue1 with _ | ⟨res, rest2⟩
            · simp at h
            · rcases rest2 with _ | ⟨r2, rs⟩
              · cases h
                simp only [lookupA]
                split
                · rename_i hcx
                  exfalso
                  rw [hcx] at hv
                  rw [hv] at hx
                  cases hx
                · exact hst1
              · simp at h

/-- C5: the Value Map memoizes — once it holds an entry for a cell,
resolving that cell returns exactly the stored value at once, with the
state and visiting set untouched (lines 119-120), and no evaluation
(however many other cells it resolves and caches on the way) ever
changes or removes an existing entry, so a second resolution — direct
or through a referencing cell — yields the identical cached value. -/
theorem c5_value_map_memoization_immutable :
    (∀ (fuel : Nat) (st : EvalState) (cell : Str) (vis : List Str)
        (v : PyVal),
        lookupA st.valMap cell = some v →
        evaluateDFS (fuel + 1) st cell vis = .ok (v, st, vis)) ∧
    (∀ (fuel : Nat) (st : EvalState) (cell : Str) (vis : List Str)
        (out : DfsResult),
        evaluateDFS fuel st cell vis = .ok out →
        ∀ (x : Str) (w : PyVal), lookupA st.valMap x = some w →
          lookupA out.2.1.valMap x = some w) := by
  refine ⟨fun fuel st cell vis v hv => ?_, evaluateDFS_preserves_valMap⟩
  simp [evaluateDFS, hv]

/-- Python slicing `op[colCount:]` with `colCount` the matched-prefix
length is exactly `dropWhile`. -/
theorem drop_length_takeWhile {α : Type} (p : α → Bool) :
    ∀ l : List α, l.drop (l.takeWhile p).length = l.dropWhile p := by
  intro l
  induction l with
  | nil => rfl
  | cons c rest ih =>
    cases hc : p c with
    | true => simpa [List.takeWhile_cons, List.dropWhile_cons, hc] using ih
    | false => simp [List.takeWhile_cons, List.dropWhile_cons, hc]

theorem takeWhile_append_of_all {α : Type} (p : α → Bool) :
    ∀ l r : List α, (∀ x ∈ l, p x = true) →
      (l ++ r).takeWhile p = l ++ r.takeWhile p := by
  intro l r
  induction l with
  | nil => intro; rfl
  | cons c rest ih =>
    intro hall
    have hc : p c = true := hall c (by simp)
    simp [List.takeWhile_cons, hc, ih fun x hx => hall x (by simp [hx])]

theorem dropWhile_append_of_all {α : Type} (p : α → Bool) :
    ∀ l r : List α, (∀ x ∈ l, p x = true) →
      (l ++ r).dropWhile p = r.dropWhile p := by
  intro l r
  induction l with
  | nil => intro; rfl
  | cons c rest ih =>
    intro hall
    have hc : p c = true := hall c (by simp)
    simp [List.dropWhile_cons, hc, ih fun x hx => hall x (by simp [hx])]

/-- A decimal digit is not an uppercase letter, so the letter prefix the
source counts stops exactly where the digits begin. -/
theorem digit_not_upperAlpha (c : Char) (h : c.isDigit = true) :
    (c.isAlpha && c.isUpper) = false := by
  cases hu : c.isUpper
  · simp
  · exfalso
    simp only [Char.isDigit, Bool.and_eq_true, decide_eq_true_eq,
      ge_iff_le] at h
    simp only [Char.isUpper, Bool.and_eq_true, decide_eq_true_eq,
      ge_iff_le] at hu
    exact absurd (UInt32.le_trans hu.1 h.2) (by decide)

/-- C8: `isCellReference` accepts a token exactly when it splits as a
non-empty maximal run of uppercase letters followed by a non-empty
all-digit remainder of positive value (leading zeros permitted, an
all-zero suffix rejected).  The split is necessarily the maximal letter
prefix, since the first digit is not an uppercase letter.  Totality —
the claim's "returns a boolean, does not fail, on every input" — is
carried by the function itself, defined on every string. -/
theorem c8_isCellReference_characterization :
    ∀ op : Str, isCellReference op = true ↔
      ∃ letters digits : Str,
        op = letters ++ digits ∧ letters ≠ [] ∧ digits ≠ [] ∧
        (∀ c ∈ letters, c.isAlpha = true ∧ c.isUpper = true) ∧
        (∀ c ∈ digits, c.isDigit = true) ∧ 0 < digitsToNat digits := by
  intro op
  constructor
  · intro h
    simp only [isCellReference] at h
    split at h
    · cases h
    · rename_i hop
      split at h
      · cases h
      · rename_i hcol
        simp only [Bool.and_eq_true, Bool.not_eq_true', List.isEmpty_eq_false,
          List.all_eq_true, decide_eq_true_eq] at h
        refine ⟨op.takeWhile fun c => c.isAlpha && c.isUpper,
          op.drop (op.takeWhile fun c => c.isAlpha && c.isUpper).length,
          ?_, ?_, ?_, ?_, ?_, ?_⟩
        · rw [drop_length_takeWhile, List.takeWhile_append_dropWhile]
        · intro hnil
          exact hcol (by rw [hnil]; rfl)
        · exact h.1.1
        · intro c hc
          have := List.mem_takeWhile_imp hc
          exact ⟨(Bool.and_eq_true _ _ |>.mp this).1,
            (Bool.and_eq_true _ _ |>.mp this).2⟩
        · exact h.1.2
        · exact h.2
  · rintro ⟨letters, digits, rfl, hl, hd, hall, hdig, hpos⟩
    obtain ⟨d0, ds, rfl⟩ : ∃ d0 ds, digits = d0 :: ds := by
      cases digits with
      | nil => exact absurd rfl hd
      | cons a b => exact ⟨a, b, rfl⟩
    have hall' : ∀ c ∈ letters, (c.isAlpha && c.isUpper) = true := by
      intro c hc
      have := hall c hc
      simp [this.1, this.2]
    have hd0 : (d0.isAlpha && d0.isUpper) = false :=
      digit_not_upperAlpha d0 (hdig d0 (by simp))
    have htw : ((letters ++ d0 :: ds).takeWhile fun c =>
        c.isAlpha && c.isUpper) = letters := by
      rw [takeWhile_append_of_all _ _ _ hall', List.takeWhile_cons_of_neg]
      · simp
      · simp [hd0]
    have hdw : ((letters ++ d0 :: ds).dropWhile fun c =>
        c.isAlpha && c.isUpper) = d0 :: ds := by
      rw [dropWhile_append_of_all _ _ _ hall', List.dropWhile_cons_of_neg]
      simp [hd0]
    simp only [isCellReference, htw, drop_length_takeWhile, hdw,
      List.drop_left]
    have hlnil : letters ++ d0 :: ds ≠ [] := by simp
    rw [if_neg hlnil, if_neg]
    · simp only [Bool.and_eq_true, Bool.not_eq_true', List.isEmpty_eq_false,
        List.all_eq_true, decide_eq_true_eq]
      refine ⟨⟨?_, ?_⟩, hpos⟩
      · simp
      · exact fun a ha => hdig a ha
    · intro hlen
      exact hl (List.length_eq_zero.mp hlen)

/-- A digit character is neither sign character. -/
theorem digit_not_sign (c : Char) (h : c.isDigit = true) :
    (c = '+' || c = '-') = false := by
  cases hc : (c = '+' || c = '-')
  · rfl
  · exfalso
    simp only [Bool.or_eq_true, decide_eq_true_eq] at hc
    rcases hc with rfl | rfl <;> exact absurd h (by decide)

/-- On a non-empty sign-stripped body accepted by the regex, `float`
succeeds: the body is either all digits or digits-dot-digits, and in
both shapes a digit is present. -/
theorem pyFloatBody_isSome (sign : ℚ) (body : Str) (hb : body ≠ [])
    (h : (match body.dropWhile Char.isDigit with
          | [] => true
          | c :: rest => c = '.' && !rest.isEmpty && rest.all Char.isDigit)
        = true) :
    ∃ q, pyFloatBody sign body = some q := by
  cases hdw : body.dropWhile Char.isDigit with
  | nil =>
    have hall : ∀ x ∈ body, Char.isDigit x = true :=
      List.dropWhile_eq_nil_iff.mp hdw
    obtain ⟨d, ds, rfl⟩ : ∃ d ds, body = d :: ds := by
      cases body with
      | nil => exact absurd rfl hb
      | cons a b => exact ⟨a, b, rfl⟩
    have hd : d.isDigit = true := hall d (by simp)
    simp only [pyFloatBody]
    rw [drop_length_takeWhile, hdw]
    simp only [List.takeWhile_cons, hd, if_true, List.isEmpty_cons,
      Bool.false_eq_true, if_false]
    exact ⟨_, rfl⟩
  | cons c restf =>
    rw [hdw] at h
    simp only [Bool.and_eq_true, Bool.not_eq_true', List.isEmpty_eq_false,
      List.all_eq_true, decide_eq_true_eq] at h
    obtain ⟨⟨hcdot, hfne⟩, hfall⟩ := h
    subst hcdot
    have h1 : restf.isEmpty = false := by
      cases restf with
      | nil => exact absurd rfl hfne
      | cons a b => rfl
    have h2 : restf.all Char.isDigit = true := List.all_eq_true.mpr hfall
    simp only [pyFloatBody, drop_length_takeWhile, hdw, h1, h2,
      Bool.and_false, Bool.not_true, Bool.or_false, Bool.false_eq_true,
      if_false]
    exact ⟨_, rfl⟩

/-- On any non-empty non-operator token accepted by the source's regex,
Python's `float` call succeeds, so the defensive `InvalidNumber` branch
is unreachable in a real run. -/
theorem pyFloat_some_of_matches (op : Str) (h : matchesNumeral op = true)
    (hne : op ≠ []) (hop : isOperator op = false) :
    ∃ q, pyFloat op = some q := by
  obtain ⟨c, rest0, rfl⟩ : ∃ c r, op = c :: r := by
    cases op with
    | nil => exact absurd rfl hne
    | cons a b => exact ⟨a, b, rfl⟩
  by_cases hminus : c = '-'
  · subst hminus
    have hr : rest0 ≠ [] := by
      rintro rfl
      simp [isOperator] at hop
    simp only [matchesNumeral, show (('-' = '+' : Bool) || ('-' = '-')) = true
      from by decide, if_true] at h
    simp only [pyFloat, if_pos rfl]
    exact pyFloatBody_isSome _ _ hr h
  · by_cases hplus : c = '+'
    · subst hplus
      have hr : rest0 ≠ [] := by
        rintro rfl
        simp [isOperator] at hop
      simp only [matchesNumeral] at h
      rw [if_pos (by decide)] at h
      simp only [pyFloat, if_true]
      exact pyFloatBody_isSome _ _ hr h
    · have hsign : ((c = '+' : Bool) || (c = '-')) = false := by
        simp [hplus, hminus]
      simp only [matchesNumeral, hsign, Bool.false_eq_true, if_false] at h
      simp only [pyFloat]
      rw [if_neg hminus, if_neg hplus]
      exact pyFloatBody_isSome _ _ (by simp) h

/-- The regex of line 146 accepts exactly: an optional sign, then either
an all-digit body (possibly empty) or digits-dot-digits with a non-empty
fraction. -/
theorem matchesNumeral_characterization :
    ∀ op : Str, matchesNumeral op = true ↔
      ∃ sign intp : Str,
        (sign = [] ∨ sign = ['+'] ∨ sign = ['-']) ∧
        (∀ c ∈ intp, c.isDigit = true) ∧
        (op = sign ++ intp ∨
          ∃ f : Str, f ≠ [] ∧ (∀ c ∈ f, c.isDigit = true) ∧
            op = sign ++ intp ++ '.' :: f) := by
  have hbody : ∀ body : Str,
      (match body.dropWhile Char.isDigit with
        | [] => true
        | c :: rest => c = '.' && !rest.isEmpty && rest.all Char.isDigit)
          = true ↔
      ∃ intp : Str, (∀ c ∈ intp, c.isDigit = true) ∧
        (body = intp ∨ ∃ f : Str, f ≠ [] ∧ (∀ c ∈ f, c.isDigit = true) ∧
          body = intp ++ '.' :: f) := by
    intro body
    constructor
    · intro h
      cases hdw : body.dropWhile Char.isDigit with
      | nil =>
        exact ⟨body, List.dropWhile_eq_nil_iff.mp hdw, Or.inl rfl⟩
      | cons c restf =>
        rw [hdw] at h
        simp only [Bool.and_eq_true, Bool.not_eq_true', List.isEmpty_eq_false,
          List.all_eq_true, decide_eq_true_eq] at h
        obtain ⟨⟨hcdot, hfne⟩, hfall⟩ := h
        subst hcdot
        refine ⟨body.takeWhile Char.isDigit,
          fun x hx => List.mem_takeWhile_imp hx, Or.inr ⟨restf, hfne, hfall, ?_⟩⟩
        conv_lhs => rw [(List.takeWhile_append_dropWhile
          (p := Char.isDigit) (l := body)).symm]
        rw [hdw]
    · rintro ⟨intp, hint, hshape | ⟨f, hfne, hfall, hshape⟩⟩
      · rw [hshape, List.dropWhile_eq_nil_iff.mpr hint]
      · subst hshape
        have hdot : ('.' : Char).isDigit = false := by decide
        rw [dropWhile_append_of_all _ _ _ hint,
          List.dropWhile_cons_of_neg (by simp [hdot])]
        have h1 : f.isEmpty = false := by
          cases f with
          | nil => exact absurd rfl hfne
          | cons a b => rfl
        simp [h1, List.all_eq_true.mpr hfall]
  intro op
  constructor
  · intro h
    cases op with
    | nil => exact ⟨[], [], Or.inl rfl, by simp, Or.inl rfl⟩
    | cons c rest0 =>
      by_cases hsign : ((c = '+' : Bool) || (c = '-')) = true
      · simp only [matchesNumeral, hsign, if_true] at h
        obtain ⟨intp, hint, hshape⟩ := (hbody rest0).mp h
        rcases Bool.or_eq_true _ _ |>.mp hsign with hc | hc
        · obtain rfl : c = '+' := by simpa using hc
          exact ⟨['+'], intp, Or.inr (Or.inl rfl), hint, by
            rcases hshape with rfl | ⟨f, hf1, hf2, rfl⟩
            · exact Or.inl rfl
            · exact Or.inr ⟨f, hf1, hf2, rfl⟩⟩
        · obtain rfl : c = '-' := by simpa using hc
          exact ⟨['-'], intp, Or.inr (Or.inr rfl), hint, by
            rcases hshape with rfl | ⟨f, hf1, hf2, rfl⟩
            · exact Or.inl rfl
            · exact Or.inr ⟨f, hf1, hf2, rfl⟩⟩
      · simp only [matchesNumeral, Bool.not_eq_true] at h
        rw [if_neg (by simp [Bool.not_eq_true] at hsign ⊢; exact hsign)] at h
        obtain ⟨intp, hint, hshape⟩ := (hbody (c :: rest0)).mp h
        exact ⟨[], intp, Or.inl rfl, hint, by
          rcases hshape with heq | ⟨f, hf1, hf2, heq⟩
          · exact Or.inl (by simpa using heq)
          · exact Or.inr ⟨f, hf1, hf2, by simpa using heq⟩⟩
  · rintro ⟨sign, intp, hsign, hint, hshape⟩
    rcases hshape with rfl | ⟨f, hf1, hf2, rfl⟩
    · have hbodym := (hbody intp).mpr ⟨intp, hint, Or.inl rfl⟩
      rcases hsign with rfl | rfl | rfl
      · cases intp with
        | nil => decide
        | cons d ds =>
          have hd : ((d = '+' : Bool) || (d = '-')) = false :=
            digit_not_sign d (hint d (by simp))
          simpa only [matchesNumeral, List.nil_append, hd,
            Bool.false_eq_true, if_false] using hbodym
      · simpa only [matchesNumeral, List.cons_append, List.nil_append,
          show (('+' = '+' : Bool) || ('+' = '-')) = true from by decide,
          if_true] using hbodym
      · simpa only [matchesNumeral, List.cons_append, List.nil_append,
          show (('-' = '+' : Bool) || ('-' = '-')) = true from by decide,
          if_true] using hbodym
    · have hbodym := (hbody (intp ++ '.' :: f)).mpr
        ⟨intp, hint, Or.inr ⟨f, hf1, hf2, rfl⟩⟩
      rcases hsign with rfl | rfl | rfl
      · cases intp with
        | nil =>
          simpa only [matchesNumeral, List.nil_append,
            show (('.' = '+' : Bool) || ('.' = '-')) = false from by decide,
            Bool.false_eq_true, if_false] using hbodym
        | cons d ds =>
          have hd : ((d = '+' : Bool) || (d = '-')) = false :=
            digit_not_sign d (hint d (by simp))
          simpa only [matchesNumeral, List.nil_append, List.cons_append, hd,
            Bool.false_eq_true, if_false] using hbodym
      · simpa only [matchesNumeral, List.cons_append, List.nil_append,
          show (('+' = '+' : Bool) || ('+' = '-')) = true from by decide,
          if_true] using hbodym
      · simpa only [matchesNumeral, List.cons_append, List.nil_append,
          show (('-' = '+' : Bool) || ('-' = '-')) = true from by decide,
          if_true] using hbodym

/-- C10 (counterexample): the token `.5` matches none of operator, cell
reference, or the claim's numeral grammar (which demands one or more
digits before the optional dot), so by the claim the cell should fail
with `InvalidToken`; but the source's regex `^[+-]?\d*(\.\d+)?$` allows
an empty integer part, and a cell holding exactly `.5` evaluates
successfully to the literal 0.5 and caches it. -/
theorem c10_leading_dot_token_counterexample :
    claimNumeralGrammar ['.', '5'] = false ∧
      isOperator ['.', '5'] = false ∧ isCellReference ['.', '5'] = false ∧
      matchesNumeral ['.', '5'] = true ∧
      evaluateDFS 2 ⟨[(['A', '1'], [['.', '5']])], []⟩ ['A', '1'] [] =
        .ok (.num (1 / 2),
          ⟨[(['A', '1'], [['.', '5']])], [(['A', '1'], PyVal.num (1 / 2))]⟩,
          []) := by
  refine ⟨by decide, by decide, by decide, by decide, ?_⟩
  have hq : pyFloat ['.', '5'] = some (1 / 2) := by
    simp only [pyFloat]
    rw [if_neg (by decide), if_neg (by decide)]
    have hip : List.takeWhile Char.isDigit ['.', '5'] = [] := by decide
    simp only [pyFloatBody, hip, List.length_nil, List.drop_zero]
    rw [if_neg (by decide)]
    rw [show digitsToNat [] = 0 from rfl,
      show digitsToNat ['5'] = 5 from by decide]
    norm_num
  have hoo : isOperator ['.', '5'] = false := by decide
  have hro : isCellReference ['.', '5'] = false := by decide
  have hmo : matchesNumeral ['.', '5'] = true := by decide
  simp [evaluateDFS, runOps, lookupA, maxTokensPerCell, hoo, hro, hmo, hq,
    List.erase_cons]

/-- C10 (amended): a non-operator, non-reference, non-empty token is
parsed and pushed as a floating-point literal exactly when it matches
the source's regex `^[+-]?\d*(\.\d+)?$` — an optional sign, ZERO or more
digits, and an optional dot followed by one or more digits (so `.5` is a
literal); the regex is characterized by the first conjunct.  Any such
token matching neither that grammar fails with `InvalidToken` naming
the token and the cell (second conjunct, which also shows the push is by
value of `float` on the token). -/
theorem c10_numeral_token_amended_grammar :
    (∀ op : Str, matchesNumeral op = true ↔
      ∃ sign intp : Str,
        (sign = [] ∨ sign = ['+'] ∨ sign = ['-']) ∧
        (∀ c ∈ intp, c.isDigit = true) ∧
        (op = sign ++ intp ∨
          ∃ f : Str, f ≠ [] ∧ (∀ c ∈ f, c.isDigit = true) ∧
            op = sign ++ intp ++ '.' :: f)) ∧
    (∀ (recur : EvalState → Str → List Str → Except Err DfsResult)
        (full : List Str) (cell op : Str) (rest : List Str)
        (queue : List PyVal) (st : EvalState) (vis : List Str),
        full.length ≤ maxTokensPerCell →
        isOperator op = false → isCellReference op = false → op ≠ [] →
        (matchesNumeral op = false →
          runOps recur full cell (op :: rest) queue st vis =
            .error (.invalidToken op cell)) ∧
        (matchesNumeral op = true →
          ∃ q, pyFloat op = some q ∧
            runOps recur full cell (op :: rest) queue st vis =
              runOps recur full cell rest (queue ++ [.num q]) st vis)) := by
  refine ⟨matchesNumeral_characterization, ?_⟩
  intro recur full cell op rest queue st vis hlen hop href hne
  have hnotlen : ¬ (full.length > maxTokensPerCell) := by omega
  constructor
  · intro hmatch
    simp only [runOps]
    rw [if_neg hnotlen]
    simp [hop, href, hmatch]
  · intro hmatch
    obtain ⟨q, hq⟩ := pyFloat_some_of_matches op hmatch hne hop
    refine ⟨q, hq, ?_⟩
    simp only [runOps]
    rw [if_neg hnotlen]
    simp [hop, href, hmatch, hq]

end SpreadsheetEval
